import Mathlib

/-!
Verification of the inventory engine (inventory-rs / game_inventory).

The crate root (src/lib.rs) declares the modules `inventory_management`,
`slot_management`, `traits` and the sample structs, and carries a doctest
exercising `add_to_inventory`; the module bodies themselves are not part of
the visible sources, so the operations below are modelled from the design
spec (data model §3, slot algorithms §4.3, `add_to_inventory` §4.4 and the
error taxonomy §7), constrained by the doctest in src/lib.rs.

Quantities are natural numbers (the spec constrains every quantity to be an
integer ≥ 0).  A slot is an optional item instance; the UI callback held by
a slot is fire-and-forget and never feeds back into the logic (§4.2), so it
is not part of the model.  An inventory is a plain list of slots (§2).
-/

namespace GameInventory

/-- Modelled from the spec: the `Item` contract (§3) — immutable identity
`id` (an equality-comparable type, here `Nat`) and `max_quantity : integer ≥ 0`.
The `stackable` capability is derived below as in the example in the crate root
implementation. -/
structure Item where
  id : Nat
  max_quantity : Nat
deriving DecidableEq

/-- From the example `Item` implementation in src/lib.rs:
`fn stackable(&self) -> bool { self.max_quantity > 1 }`. -/
def Item.stackable (i : Item) : Bool :=
  decide (1 < i.max_quantity)

/-- Modelled from the spec: the `ItemInstance` contract (§3) — a reference to
one shared `Item` plus a mutable `quantity : integer ≥ 0`. -/
structure ItemInstance where
  item : Item
  quantity : Nat
deriving DecidableEq

/-- Modelled from the spec: a `Slot` holds an optional `ItemInstance` (§3);
the optional UI callback has no effect on the algorithms and is omitted. -/
abbrev Slot := Option ItemInstance

/-- Modelled from the spec (§4.2): `set` replaces the contents of a slot
unconditionally. -/
def Slot.set (_s : Slot) (v : Slot) : Slot := v

/-- Modelled from the spec (§4.2): `clear()` is equivalent to `set(None)`. -/
def Slot.clear (s : Slot) : Slot := Slot.set s none

/-- Modelled from the spec: the error taxonomy of §7. -/
inductive InvError where
  | InvalidQuantity
  | ItemMismatch
  | NotStackable
  | SlotEmpty
deriving DecidableEq

/-- Modelled from the spec (§4.3): `swap(slot_a, slot_b)` unconditionally
exchanges the contents of two slots and always succeeds. -/
def swap (a b : Slot) : Slot × Slot := (b, a)

/-- Modelled from the spec (§4.3): `split(slot, amount)` on a slot holding a
stackable instance with quantity `q` and `0 < amount < q` produces a new
instance with quantity `amount` and decrements the source slot to
`q - amount`; it fails when the slot is empty (`SlotEmpty`), the item is not
stackable (`NotStackable`), or `amount ≤ 0` or `amount ≥ q`
(`InvalidQuantity`). -/
def split (s : Slot) (amount : Nat) : Except InvError (ItemInstance × Slot) :=
  match s with
  | none => .error .SlotEmpty
  | some inst =>
    if inst.item.stackable = true then
      if 0 < amount ∧ amount < inst.quantity then
        .ok (⟨inst.item, amount⟩, some ⟨inst.item, inst.quantity - amount⟩)
      else
        .error .InvalidQuantity
    else
      .error .NotStackable

/-- Modelled from the spec (§4.3): `combine(dest, src)` merges src into dest
when both hold instances of the same item id and the item is stackable,
moving `min(src.quantity, dest.item.max_quantity - dest.quantity)` units;
src is cleared to empty when it reaches zero, and keeps any remainder when
dest reaches its maximum.  On failure the two slots are returned unchanged
(a reported no-op): `SlotEmpty` when either slot is empty, `ItemMismatch`
on differing ids, `NotStackable` on a non-stackable item. -/
def combine (dest src : Slot) : (Slot × Slot) × Option InvError :=
  match dest, src with
  | none, s => ((none, s), some .SlotEmpty)
  | some d, none => ((some d, none), some .SlotEmpty)
  | some d, some s =>
    if d.item.id = s.item.id then
      if d.item.stackable = true then
        let moved := min s.quantity (d.item.max_quantity - d.quantity)
        let rest := s.quantity - moved
        ((some ⟨d.item, d.quantity + moved⟩,
          if rest = 0 then none else some ⟨s.item, rest⟩), none)
      else
        ((some d, some s), some .NotStackable)
    else
      ((some d, some s), some .ItemMismatch)

/-- Modelled from the spec (§4.4, step 1): the stacking pass walks the slots
in order; every non-empty slot holding the same item id, stackable and not
yet at its maximum absorbs `min(remaining, max_quantity - slot.quantity)`
units.  Returns the updated slots and the remaining quantity. -/
def stackingPass (it : Item) : List Slot → Nat → List Slot × Nat
  | [], rem => ([], rem)
  | none :: rest, rem =>
    let r := stackingPass it rest rem
    (none :: r.1, r.2)
  | some inst :: rest, rem =>
    if inst.item.id = it.id ∧ inst.item.stackable = true ∧
        inst.quantity < inst.item.max_quantity then
      let moved := min rem (inst.item.max_quantity - inst.quantity)
      let r := stackingPass it rest (rem - moved)
      (some ⟨inst.item, inst.quantity + moved⟩ :: r.1, r.2)
    else
      let r := stackingPass it rest rem
      (some inst :: r.1, r.2)

/-- Modelled from the spec (§4.4, step 2): the placement pass scans from the
start for empty slots while the remainder is positive; each empty slot
absorbs up to `max_quantity`, the rest moves on to the next empty slot. -/
def placementPass (it : Item) : List Slot → Nat → List Slot × Nat
  | [], rem => ([], rem)
  | none :: rest, rem =>
    if rem = 0 then (none :: rest, 0)
    else
      let moved := min rem it.max_quantity
      let r := placementPass it rest (rem - moved)
      (some ⟨it, moved⟩ :: r.1, r.2)
  | some inst :: rest, rem =>
    let r := placementPass it rest rem
    (some inst :: r.1, r.2)

/-- Modelled from the spec (§4.4, edge cases): a non-stackable instance skips
the stacking pass and is placed whole into the first empty slot; when no
empty slot exists the instance itself is the remainder.  The doctest in
src/lib.rs shows this path placing even a quantity-0 instance. -/
def placeFirstEmpty (inst : ItemInstance) : List Slot → List Slot × Option ItemInstance
  | [] => ([], some inst)
  | none :: rest => (some inst :: rest, none)
  | some s :: rest =>
    let r := placeFirstEmpty inst rest
    (some s :: r.1, r.2)

/-- Modelled from the spec (§4.4): `add_to_inventory` runs the stacking pass
then the placement pass for a stackable instance and returns the unplaced
remainder (none when everything fit); a non-stackable instance goes straight
to first-empty-slot placement, as the doctest in src/lib.rs requires. -/
def add_to_inventory (inv : List Slot) (inst : ItemInstance) :
    List Slot × Option ItemInstance :=
  if inst.item.stackable = true then
    let r1 := stackingPass inst.item inv inst.quantity
    let r2 := placementPass inst.item r1.1 r1.2
    (r2.1, if r2.2 = 0 then none else some ⟨inst.item, r2.2⟩)
  else
    placeFirstEmpty inst inv

/-- The quantity held by a slot (0 for an empty slot). -/
def slotQuant (s : Slot) : Nat :=
  match s with
  | none => 0
  | some i => i.quantity

/-- Total quantity held by an inventory. -/
def totalQuant (l : List Slot) : Nat :=
  (l.map slotQuant).sum

/-- Quantity carried by an optional remainder (none counts as 0). -/
def remQuant (r : Option ItemInstance) : Nat :=
  match r with
  | none => 0
  | some i => i.quantity

/-- Whether an `Except` result is a success. -/
def exOk {ε α : Type} : Except ε α → Bool
  | .ok _ => true
  | .error _ => false

/-- The state invariant of §3 on one instance: positive quantity, bounded by
`max_quantity` when stackable and by 1 when not. -/
def instOk (i : ItemInstance) : Prop :=
  0 < i.quantity ∧
    (i.item.stackable = true → i.quantity ≤ i.item.max_quantity) ∧
    (i.item.stackable = false → i.quantity ≤ 1)

instance (i : ItemInstance) : Decidable (instOk i) := by
  unfold instOk
  exact inferInstance

/-- The state invariant on a slot: empty, or holding a valid instance. -/
def slotOk : Slot → Prop
  | none => True
  | some i => instOk i

instance : (s : Slot) → Decidable (slotOk s)
  | none => .isTrue trivial
  | some i => inferInstanceAs (Decidable (instOk i))

/-- The state invariant on a whole inventory. -/
def invOk (l : List Slot) : Prop := ∀ s ∈ l, slotOk s

instance (l : List Slot) : Decidable (invOk l) :=
  inferInstanceAs (Decidable (∀ s ∈ l, slotOk s))

/-- A slot that can absorb nothing of item `it`: occupied, and either holding
a different item id or already at the maximum of its own item. -/
def slotBlocked (it : Item) : Slot → Bool
  | none => false
  | some j => decide (j.item.id ≠ it.id ∨ j.item.max_quantity ≤ j.quantity)

/-- A slot that does not match item `it`: empty, or holding a different
item id. -/
def slotNoMatch (it : Item) : Slot → Bool
  | none => true
  | some j => decide (j.item.id ≠ it.id)

/-- The doctest of src/lib.rs: adding the quantity-0 non-stackable Sword to
[Cheese 32, empty, empty, Cheese 32] stores it in slot 1. -/
theorem lib_rs_doctest :
    add_to_inventory
      [some ⟨⟨0, 100⟩, 32⟩, none, none, some ⟨⟨0, 100⟩, 32⟩] ⟨⟨1, 0⟩, 0⟩ =
      ([some ⟨⟨0, 100⟩, 32⟩, some ⟨⟨1, 0⟩, 0⟩, none, some ⟨⟨0, 100⟩, 32⟩],
        none) := by
  decide

theorem totalQuant_nil : totalQuant [] = 0 := rfl

theorem totalQuant_cons (s : Slot) (l : List Slot) :
    totalQuant (s :: l) = slotQuant s + totalQuant l := by
  simp [totalQuant]

/-- A stacking pass with nothing to distribute leaves every slot unchanged. -/
theorem stackingPass_zero (it : Item) (l : List Slot) :
    stackingPass it l 0 = (l, 0) := by
  induction l with
  | nil => rfl
  | cons s rest ih =>
    cases s with
    | none => simp [stackingPass, ih]
    | some inst =>
      by_cases h : inst.item.id = it.id ∧ inst.item.stackable = true ∧
          inst.quantity < inst.item.max_quantity
      · simp [stackingPass, h, ih]
      · simp [stackingPass, h, ih]

/-- A placement pass with nothing to place leaves every slot unchanged. -/
theorem placementPass_zero (it : Item) (l : List Slot) :
    placementPass it l 0 = (l, 0) := by
  induction l with
  | nil => rfl
  | cons s rest ih =>
    cases s with
    | none => simp [placementPass]
    | some inst => simp [placementPass, ih]

/-- Quantity conservation for the stacking pass. -/
theorem stackingPass_conserve (it : Item) (l : List Slot) (rem : Nat) :
    totalQuant (stackingPass it l rem).1 + (stackingPass it l rem).2 =
      totalQuant l + rem := by
  induction l generalizing rem with
  | nil => rfl
  | cons s rest ih =>
    cases s with
    | none =>
      simp [stackingPass, totalQuant_cons, slotQuant]
      have := ih rem
      omega
    | some inst =>
      by_cases h : inst.item.id = it.id ∧ inst.item.stackable = true ∧
          inst.quantity < inst.item.max_quantity
      · have hm : min rem (inst.item.max_quantity - inst.quantity) ≤ rem :=
          Nat.min_le_left _ _
        simp [stackingPass, h, totalQuant_cons, slotQuant]
        have := ih (rem - min rem (inst.item.max_quantity - inst.quantity))
        omega
      · simp [stackingPass, h, totalQuant_cons, slotQuant]
        have := ih rem
        omega

/-- Quantity conservation for the placement pass. -/
theorem placementPass_conserve (it : Item) (l : List Slot) (rem : Nat) :
    totalQuant (placementPass it l rem).1 + (placementPass it l rem).2 =
      totalQuant l + rem := by
  induction l generalizing rem with
  | nil => rfl
  | cons s rest ih =>
    cases s with
    | none =>
      by_cases h0 : rem = 0
      · simp [placementPass, h0]
      · have hm : min rem it.max_quantity ≤ rem := Nat.min_le_left _ _
        simp [placementPass, h0, totalQuant_cons, slotQuant]
        have := ih (rem - min rem it.max_quantity)
        omega
    | some inst =>
      simp [placementPass, totalQuant_cons, slotQuant]
      have := ih rem
      omega

/-- Quantity conservation for first-empty placement of a whole instance. -/
theorem placeFirstEmpty_conserve (inst : ItemInstance) (l : List Slot) :
    totalQuant (placeFirstEmpty inst l).1 + remQuant (placeFirstEmpty inst l).2 =
      totalQuant l + inst.quantity := by
  induction l with
  | nil => simp [placeFirstEmpty, totalQuant, remQuant]
  | cons s rest ih =>
    cases s with
    | none => simp [placeFirstEmpty, totalQuant_cons, slotQuant, remQuant]; omega
    | some j =>
      simp [placeFirstEmpty, totalQuant_cons, slotQuant]
      omega

/-- C2: conservation — the quantity passed to `add_to_inventory` equals the
quantity absorbed by the slots plus the quantity of the returned remainder
(none counting as 0); no quantity is created or destroyed. -/
theorem add_to_inventory_conserves (inv : List Slot) (inst : ItemInstance) :
    totalQuant (add_to_inventory inv inst).1 +
        remQuant (add_to_inventory inv inst).2 =
      totalQuant inv + inst.quantity := by
  unfold add_to_inventory
  by_cases h : inst.item.stackable = true
  · have h1 := stackingPass_conserve inst.item inv inst.quantity
    have h2 := placementPass_conserve inst.item
      (stackingPass inst.item inv inst.quantity).1
      (stackingPass inst.item inv inst.quantity).2
    by_cases h0 : (placementPass inst.item
        (stackingPass inst.item inv inst.quantity).1
        (stackingPass inst.item inv inst.quantity).2).2 = 0
    · simp [h, h0, remQuant]
      omega
    · simp [h, h0, remQuant]
      omega
  · simp [h]
    exact placeFirstEmpty_conserve inst inv

/-- C1 counterexample: adding a quantity-0 instance of a non-stackable item
to a one-slot empty inventory is not a no-op — the instance is stored in the
empty slot (exactly the Sword scenario of the src/lib.rs doctest), so the
claim fails for non-stackable quantity-0 instances. -/
theorem add_to_inventory_zero_not_noop :
    ¬ add_to_inventory [none] ⟨⟨1, 0⟩, 0⟩ = ([none], none) := by
  decide

/-- C1 (amended): for a *stackable* instance with quantity 0,
`add_to_inventory` is a no-op: it returns none and leaves every slot
unchanged. -/
theorem add_to_inventory_zero_stackable (inv : List Slot) (inst : ItemInstance)
    (hs : inst.item.stackable = true) (h0 : inst.quantity = 0) :
    add_to_inventory inv inst = (inv, none) := by
  unfold add_to_inventory
  simp [hs, h0, stackingPass_zero, placementPass_zero]

theorem add_to_inventory_zero_stackable_w :
    add_to_inventory [none, some ⟨⟨0, 100⟩, 32⟩] ⟨⟨0, 100⟩, 0⟩ =
      ([none, some ⟨⟨0, 100⟩, 32⟩], none) :=
  add_to_inventory_zero_stackable _ _ (by decide) (by decide)

/-- C4: with slot 0 holding 90/100 of item A and slot 1 empty, adding 20 of
item A fills slot 0 to 100, places 10 in slot 1 and returns no remainder:
existing stacks are topped up before empty slots are used. -/
theorem add_to_inventory_stacking_priority :
    add_to_inventory [some ⟨⟨0, 100⟩, 90⟩, none] ⟨⟨0, 100⟩, 20⟩ =
      ([some ⟨⟨0, 100⟩, 100⟩, some ⟨⟨0, 100⟩, 10⟩], none) := by
  decide

/-- C8: `swap` always succeeds (it is a total function returning the
exchanged pair) and applying it twice restores both slots. -/
theorem swap_involutive (a b : Slot) :
    swap a b = (b, a) ∧ swap (swap a b).1 (swap a b).2 = (a, b) :=
  ⟨rfl, rfl⟩

/-- C6: `split` fails exactly when the slot is empty, the item is not
stackable, the amount is 0 (≤ 0 in naturals) or the amount is ≥ the held
quantity; on `0 < amount < q` for a stackable instance it returns a new
instance with quantity `amount` and leaves `q - amount` in the slot. -/
theorem split_characterization (s : Slot) (amount : Nat) :
    (s = none → split s amount = .error .SlotEmpty) ∧
    (∀ i, s = some i →
      (exOk (split s amount) = false ↔
        (i.item.stackable = false ∨ amount = 0 ∨ i.quantity ≤ amount))) ∧
    (∀ i, s = some i → i.item.stackable = true → 0 < amount →
      amount < i.quantity →
      split s amount = .ok (⟨i.item, amount⟩, some ⟨i.item, i.quantity - amount⟩)) := by
  refine ⟨?_, ?_, ?_⟩
  · rintro rfl
    rfl
  · rintro i rfl
    by_cases hs : i.item.stackable = true
    · by_cases hc : 0 < amount ∧ amount < i.quantity
      · simp [split, exOk, hs, hc]
        omega
      · simp [split, exOk, hs, hc]
        omega
    · simp only [Bool.not_eq_true] at hs
      simp [split, exOk, hs]
  · rintro i rfl hs h1 h2
    simp [split, hs, h1, h2]

theorem split_characterization_w :
    split (some ⟨⟨2, 50⟩, 20⟩) 8 =
      .ok (⟨⟨2, 50⟩, 8⟩, some ⟨⟨2, 50⟩, 12⟩) :=
  (split_characterization (some ⟨⟨2, 50⟩, 20⟩) 8).2.2 ⟨⟨2, 50⟩, 20⟩ rfl
    (by decide) (by decide) (by decide)

/-- C7: on two occupied slots with the same stackable item id, `combine`
moves exactly `min(src.quantity, dest.item.max_quantity - dest.quantity)`
units into dest, clears src to empty exactly when it reaches 0, keeps any
remainder in src, and conserves the total quantity; on differing item ids it
is a no-op reporting `ItemMismatch`. -/
theorem combine_characterization (d s : ItemInstance) :
    (d.item.id = s.item.id → d.item.stackable = true →
      combine (some d) (some s) =
        ((some ⟨d.item, d.quantity +
            min s.quantity (d.item.max_quantity - d.quantity)⟩,
          if s.quantity - min s.quantity (d.item.max_quantity - d.quantity) = 0
          then none
          else some ⟨s.item,
            s.quantity - min s.quantity (d.item.max_quantity - d.quantity)⟩),
          none)) ∧
    (d.item.id = s.item.id → d.item.stackable = true →
      slotQuant (combine (some d) (some s)).1.1 +
          slotQuant (combine (some d) (some s)).1.2 =
        d.quantity + s.quantity) ∧
    (d.item.id ≠ s.item.id →
      combine (some d) (some s) = ((some d, some s), some .ItemMismatch)) := by
  refine ⟨?_, ?_, ?_⟩
  · intro hid hs
    simp [combine, hid, hs]
  · intro hid hs
    by_cases h0 :
        s.quantity - min s.quantity (d.item.max_quantity - d.quantity) = 0
    · simp [combine, hid, hs, h0, slotQuant]
      omega
    · simp [combine, hid, hs, h0, slotQuant]
      omega
  · intro hne
    simp [combine, hne]

theorem combine_characterization_w :
    combine (some ⟨⟨0, 100⟩, 90⟩) (some ⟨⟨0, 100⟩, 20⟩) =
      ((some ⟨⟨0, 100⟩, 100⟩, some ⟨⟨0, 100⟩, 10⟩), none) :=
  ((combine_characterization ⟨⟨0, 100⟩, 90⟩ ⟨⟨0, 100⟩, 20⟩).1 rfl
    (by decide)).trans (by decide)

/-- C9: splitting `amount` off a stackable slot holding `q` (with
`0 < amount < q` and the invariant bound `q ≤ max_quantity`) and combining
the produced instance back into the source slot restores the original
quantity `q` and leaves the temporary instance empty. -/
theorem split_combine_roundtrip (it : Item) (q amount : Nat)
    (hs : it.stackable = true) (h1 : 0 < amount) (h2 : amount < q)
    (h3 : q ≤ it.max_quantity) :
    split (some ⟨it, q⟩) amount = .ok (⟨it, amount⟩, some ⟨it, q - amount⟩) ∧
    combine (some ⟨it, q - amount⟩) (some ⟨it, amount⟩) =
      ((some ⟨it, q⟩, none), none) := by
  constructor
  · simp [split, hs, h1, h2]
  · have hmin : min amount (it.max_quantity - (q - amount)) = amount := by
      omega
    simp [combine, hs, hmin]
    omega

theorem split_combine_roundtrip_w :
    split (some ⟨⟨3, 64⟩, 40⟩) 15 =
        .ok (⟨⟨3, 64⟩, 15⟩, some ⟨⟨3, 64⟩, 25⟩) ∧
      combine (some ⟨⟨3, 64⟩, 25⟩) (some ⟨⟨3, 64⟩, 15⟩) =
        ((some ⟨⟨3, 64⟩, 40⟩, none), none) :=
  split_combine_roundtrip ⟨3, 64⟩ 40 15 (by decide) (by decide) (by decide)
    (by decide)

/-- A stacking pass over slots none of which can take part in stacking
leaves everything unchanged. -/
theorem stackingPass_noop (it : Item) (l : List Slot) (rem : Nat)
    (h : ∀ j, some j ∈ l → ¬(j.item.id = it.id ∧ j.item.stackable = true ∧
      j.quantity < j.item.max_quantity)) :
    stackingPass it l rem = (l, rem) := by
  induction l with
  | nil => rfl
  | cons s rest ih =>
    have ih2 := ih fun j hj => h j (List.mem_cons_of_mem _ hj)
    cases s with
    | none => simp [stackingPass, ih2]
    | some inst =>
      have hc := h inst (List.mem_cons_self _ _)
      simp [stackingPass, hc, ih2]

/-- A placement pass over an inventory with no empty slot changes nothing. -/
theorem placementPass_noEmpty (it : Item) (l : List Slot) (rem : Nat)
    (h : ∀ s ∈ l, s ≠ none) :
    placementPass it l rem = (l, rem) := by
  induction l generalizing rem with
  | nil => rfl
  | cons s rest ih =>
    cases s with
    | none => exact absurd rfl (h none (List.mem_cons_self _ _))
    | some inst =>
      simp [placementPass, ih _ fun s hs => h s (List.mem_cons_of_mem _ hs)]

/-- First-empty placement over an inventory with no empty slot returns the
whole instance as remainder and changes nothing. -/
theorem placeFirstEmpty_noEmpty (inst : ItemInstance) (l : List Slot)
    (h : ∀ s ∈ l, s ≠ none) :
    placeFirstEmpty inst l = (l, some inst) := by
  induction l with
  | nil => rfl
  | cons s rest ih =>
    cases s with
    | none => exact absurd rfl (h none (List.mem_cons_self _ _))
    | some j =>
      simp [placeFirstEmpty, ih fun s hs => h s (List.mem_cons_of_mem _ hs)]

/-- C5: when every slot is occupied and each one either holds a different
item id or sits at the maximum of its own item, adding any positive quantity
returns the full input as remainder and leaves every slot unchanged. -/
theorem add_to_inventory_full (inv : List Slot) (inst : ItemInstance)
    (hq : 0 < inst.quantity)
    (h : ∀ s ∈ inv, slotBlocked inst.item s = true) :
    add_to_inventory inv inst = (inv, some inst) := by
  have hocc : ∀ s ∈ inv, s ≠ none := by
    intro s hs hn
    subst hn
    have := h none hs
    simp [slotBlocked] at this
  have hblock : ∀ j, some j ∈ inv →
      ¬(j.item.id = inst.item.id ∧ j.item.stackable = true ∧
        j.quantity < j.item.max_quantity) := by
    intro j hj
    have hb := h (some j) hj
    simp [slotBlocked] at hb
    rintro ⟨h1, _, h3⟩
    rcases hb with hb | hb
    · exact hb h1
    · omega
  by_cases hs : inst.item.stackable = true
  · unfold add_to_inventory
    have hz : ¬ inst.quantity = 0 := by omega
    simp [hs, stackingPass_noop inst.item inv inst.quantity hblock,
      placementPass_noEmpty inst.item inv inst.quantity hocc, hz]
  · unfold add_to_inventory
    simp [hs, placeFirstEmpty_noEmpty inst inv hocc]

theorem add_to_inventory_full_w :
    add_to_inventory [some ⟨⟨0, 100⟩, 100⟩, some ⟨⟨9, 100⟩, 5⟩]
        ⟨⟨0, 100⟩, 7⟩ =
      ([some ⟨⟨0, 100⟩, 100⟩, some ⟨⟨9, 100⟩, 5⟩], some ⟨⟨0, 100⟩, 7⟩) :=
  add_to_inventory_full _ _ (by decide) (by decide)

/-- When the remainder is positive, fits in one slot, and an empty slot
exists, the placement pass writes the whole remainder into the first empty
slot and leaves every other slot unchanged. -/
theorem placementPass_firstEmpty (it : Item) (l : List Slot) (rem : Nat)
    (h0 : rem ≠ 0) (hle : rem ≤ it.max_quantity) (hmem : none ∈ l) :
    placementPass it l rem =
      (l.set (l.findIdx fun s => s.isNone) (some ⟨it, rem⟩), 0) := by
  induction l with
  | nil => cases hmem
  | cons s rest ih =>
    cases s with
    | none =>
      have hmin : min rem it.max_quantity = rem := by omega
      simp [placementPass, h0, hmin, placementPass_zero, List.findIdx_cons]
    | some inst =>
      have hmem2 : none ∈ rest := by
        rcases List.mem_cons.mp hmem with h | h
        · exact absurd h (by simp)
        · exact h
      simp [placementPass, List.findIdx_cons, ih hmem2, List.set_cons_succ]

/-- First-empty placement writes the instance into the first empty slot and
leaves every other slot unchanged. -/
theorem placeFirstEmpty_mem (inst : ItemInstance) (l : List Slot)
    (hmem : none ∈ l) :
    placeFirstEmpty inst l =
      (l.set (l.findIdx fun s => s.isNone) (some inst), none) := by
  induction l with
  | nil => cases hmem
  | cons s rest ih =>
    cases s with
    | none => simp [placeFirstEmpty, List.findIdx_cons]
    | some j =>
      have hmem2 : none ∈ rest := by
        rcases List.mem_cons.mp hmem with h | h
        · exact absurd h (by simp)
        · exact h
      simp [placeFirstEmpty, List.findIdx_cons, ih hmem2, List.set_cons_succ]

/-- C10: adding an instance whose item id matches no occupied slot (with
positive quantity fitting one stack) writes it into the first empty slot —
occupied slots are skipped, later empty slots stay empty, and every other
slot keeps exactly its previous contents (the result is `inv.set` at the
index of the first empty slot). -/
theorem add_to_inventory_first_empty (inv : List Slot) (inst : ItemInstance)
    (hq : 0 < inst.quantity)
    (hbound : inst.item.stackable = true →
      inst.quantity ≤ inst.item.max_quantity)
    (hmem : none ∈ inv)
    (hnm : ∀ s ∈ inv, slotNoMatch inst.item s = true) :
    add_to_inventory inv inst =
      (inv.set (inv.findIdx fun s => s.isNone)
        (some ⟨inst.item, inst.quantity⟩), none) := by
  have hblock : ∀ j, some j ∈ inv →
      ¬(j.item.id = inst.item.id ∧ j.item.stackable = true ∧
        j.quantity < j.item.max_quantity) := by
    intro j hj
    have hb := hnm (some j) hj
    simp [slotNoMatch] at hb
    rintro ⟨h1, _, _⟩
    exact hb h1
  by_cases hs : inst.item.stackable = true
  · have hz : inst.quantity ≠ 0 := by omega
    unfold add_to_inventory
    simp [hs, stackingPass_noop inst.item inv inst.quantity hblock,
      placementPass_firstEmpty inst.item inv inst.quantity hz (hbound hs) hmem]
  · unfold add_to_inventory
    simp [hs, placeFirstEmpty_mem inst inv hmem]

theorem add_to_inventory_first_empty_w :
    add_to_inventory [some ⟨⟨7, 100⟩, 50⟩, none, none] ⟨⟨1, 40⟩, 7⟩ =
      ([some ⟨⟨7, 100⟩, 50⟩, some ⟨⟨1, 40⟩, 7⟩, none], none) :=
  (add_to_inventory_first_empty [some ⟨⟨7, 100⟩, 50⟩, none, none]
    ⟨⟨1, 40⟩, 7⟩ (by decide) (fun _ => by decide) (by decide)
    (by decide)).trans (by decide)

theorem stackable_iff (i : Item) : i.stackable = true ↔ 1 < i.max_quantity := by
  simp [Item.stackable]

/-- Arithmetic restatement of the instance invariant. -/
theorem instOk_iff (i : ItemInstance) :
    instOk i ↔ 0 < i.quantity ∧
      (1 < i.item.max_quantity → i.quantity ≤ i.item.max_quantity) ∧
      (i.item.max_quantity ≤ 1 → i.quantity ≤ 1) := by
  unfold instOk
  simp [Item.stackable, Nat.not_lt]

theorem invOk_cons {s : Slot} {l : List Slot} :
    invOk (s :: l) ↔ slotOk s ∧ invOk l := by
  simp [invOk]

/-- The stacking pass preserves the state invariant. -/
theorem stackingPass_ok (it : Item) (l : List Slot) (rem : Nat)
    (h : invOk l) : invOk (stackingPass it l rem).1 := by
  induction l generalizing rem with
  | nil => simpa using h
  | cons s rest ih =>
    rw [invOk_cons] at h
    cases s with
    | none =>
      simp only [stackingPass]
      rw [invOk_cons]
      exact ⟨trivial, ih rem h.2⟩
    | some inst =>
      by_cases hc : inst.item.id = it.id ∧ inst.item.stackable = true ∧
          inst.quantity < inst.item.max_quantity
      · simp only [stackingPass, hc, and_self, if_true, ite_true]
        rw [invOk_cons]
        constructor
        · have hinst := (instOk_iff inst).1 h.1
          have hmax := (stackable_iff _).1 hc.2.1
          have hmr : min rem (inst.item.max_quantity - inst.quantity) ≤
              inst.item.max_quantity - inst.quantity := Nat.min_le_right _ _
          show instOk _
          rw [instOk_iff]
          refine ⟨?_, ?_, ?_⟩ <;> simp only <;> omega
        · exact ih _ h.2
      · simp only [stackingPass]
        rw [if_neg hc, invOk_cons]
        exact ⟨h.1, ih _ h.2⟩

/-- The placement pass for a stackable item preserves the state invariant. -/
theorem placementPass_ok (it : Item) (l : List Slot) (rem : Nat)
    (hs : it.stackable = true) (h : invOk l) :
    invOk (placementPass it l rem).1 := by
  have hmax : 1 < it.max_quantity := (stackable_iff it).1 hs
  induction l generalizing rem with
  | nil => simpa using h
  | cons s rest ih =>
    rw [invOk_cons] at h
    cases s with
    | none =>
      by_cases h0 : rem = 0
      · simp only [placementPass]
        rw [if_pos h0, invOk_cons]
        exact ⟨trivial, h.2⟩
      · simp only [placementPass]
        rw [if_neg h0, invOk_cons]
        constructor
        · show instOk _
          rw [instOk_iff]
          refine ⟨?_, ?_, ?_⟩ <;> simp only <;> omega
        · exact ih _ h.2
    | some inst =>
      simp only [placementPass]
      rw [invOk_cons]
      exact ⟨h.1, ih rem h.2⟩

/-- First-empty placement of a valid instance preserves the invariant. -/
theorem placeFirstEmpty_ok (inst : ItemInstance) (l : List Slot)
    (hi : instOk inst) (h : invOk l) : invOk (placeFirstEmpty inst l).1 := by
  induction l with
  | nil => simp [placeFirstEmpty, invOk]
  | cons s rest ih =>
    rw [invOk_cons] at h
    cases s with
    | none =>
      simp only [placeFirstEmpty]
      rw [invOk_cons]
      exact ⟨hi, h.2⟩
    | some j =>
      simp only [placeFirstEmpty]
      rw [invOk_cons]
      exact ⟨h.1, ih h.2⟩

/-- `add_to_inventory` preserves the state invariant whenever the added
instance is of a stackable item, or is itself valid. -/
theorem add_to_inventory_ok (inv : List Slot) (inst : ItemInstance)
    (h : invOk inv) (hi : inst.item.stackable = true ∨ instOk inst) :
    invOk (add_to_inventory inv inst).1 := by
  by_cases hs : inst.item.stackable = true
  · unfold add_to_inventory
    rw [if_pos hs]
    exact placementPass_ok _ _ _ hs (stackingPass_ok _ _ _ h)
  · unfold add_to_inventory
    rw [if_neg hs]
    rcases hi with hi | hi
    · exact absurd hi hs
    · exact placeFirstEmpty_ok _ _ hi h

/-- `split` outputs only valid instances and slots. -/
theorem split_ok (s : Slot) (amount : Nat) (i : ItemInstance) (s2 : Slot)
    (hok : slotOk s) (h : split s amount = .ok (i, s2)) :
    instOk i ∧ slotOk s2 := by
  cases s with
  | none => simp [split] at h
  | some j =>
    by_cases hs : j.item.stackable = true
    · by_cases hc : 0 < amount ∧ amount < j.quantity
      · rw [split] at h
        rw [if_pos hs, if_pos hc] at h
        simp only [Except.ok.injEq, Prod.mk.injEq] at h
        obtain ⟨rfl, rfl⟩ := h
        have hj := (instOk_iff j).1 hok
        have hmax := (stackable_iff _).1 hs
        constructor
        · rw [instOk_iff]
          refine ⟨?_, ?_, ?_⟩ <;> simp only <;> omega
        · show instOk _
          rw [instOk_iff]
          refine ⟨?_, ?_, ?_⟩ <;> simp only <;> omega
      · rw [split] at h
        rw [if_pos hs, if_neg hc] at h
        exact absurd h (by simp)
    · rw [split] at h
      rw [if_neg hs] at h
      exact absurd h (by simp)

/-- `combine` preserves the slot invariant on both slots. -/
theorem combine_ok (d s : Slot) (hd : slotOk d) (hs : slotOk s) :
    slotOk (combine d s).1.1 ∧ slotOk (combine d s).1.2 := by
  cases d with
  | none => exact ⟨trivial, hs⟩
  | some di =>
    cases s with
    | none => exact ⟨hd, trivial⟩
    | some si =>
      by_cases hid : di.item.id = si.item.id
      · by_cases hst : di.item.stackable = true
        · have hdi := (instOk_iff di).1 hd
          have hsi := (instOk_iff si).1 hs
          have hmax := (stackable_iff _).1 hst
          rw [combine]
          rw [if_pos hid, if_pos hst]
          constructor
          · show instOk _
            rw [instOk_iff]
            refine ⟨?_, ?_, ?_⟩ <;> simp only <;> omega
          · by_cases h0 : si.quantity -
                min si.quantity (di.item.max_quantity - di.quantity) = 0
            · simp only [h0, if_true, ite_true]
              exact trivial
            · simp only
              rw [if_neg h0]
              show instOk _
              rw [instOk_iff]
              refine ⟨?_, ?_, ?_⟩ <;> simp only <;> omega
        · rw [combine, if_pos hid, if_neg hst]
          exact ⟨hd, hs⟩
      · rw [combine, if_neg hid]
        exact ⟨hd, hs⟩

/-- C3 counterexample: `add_to_inventory` (the Sword scenario of the src/lib.rs doctest,
scenario) stores a quantity-0 instance in a slot, so the quantity-0 part of
the invariant is not preserved by every operation. -/
theorem invariant_not_preserved :
    invOk [none] ∧ ¬ invOk (add_to_inventory [none] ⟨⟨1, 0⟩, 0⟩).1 := by
  constructor
  · decide
  · decide

/-- C3 (amended): all operations preserve the state invariant — positive
quantity, bounded by `max_quantity` when stackable and by 1 when not —
provided instances supplied from outside are themselves valid: `split`,
`combine`, `swap` and `clear` preserve it unconditionally; `set` (an
unconditional replace) when given a valid or empty replacement; and
`add_to_inventory` when the added instance is stackable (any quantity) or
itself valid. -/
theorem operations_preserve_invariant :
    (∀ (inv : List Slot) (inst : ItemInstance), invOk inv →
      (inst.item.stackable = true ∨ instOk inst) →
      invOk (add_to_inventory inv inst).1) ∧
    (∀ (s : Slot) (amount : Nat) (i : ItemInstance) (s2 : Slot), slotOk s →
      split s amount = .ok (i, s2) → instOk i ∧ slotOk s2) ∧
    (∀ d s : Slot, slotOk d → slotOk s →
      slotOk (combine d s).1.1 ∧ slotOk (combine d s).1.2) ∧
    (∀ a b : Slot, slotOk a → slotOk b →
      slotOk (swap a b).1 ∧ slotOk (swap a b).2) ∧
    (∀ s v : Slot, slotOk v → slotOk (Slot.set s v)) ∧
    (∀ s : Slot, slotOk (Slot.clear s)) :=
  ⟨add_to_inventory_ok, split_ok, combine_ok,
    fun _ _ ha hb => ⟨hb, ha⟩, fun _ _ hv => hv, fun _ => trivial⟩

theorem operations_preserve_invariant_w :
    invOk (add_to_inventory [some ⟨⟨0, 100⟩, 90⟩, none] ⟨⟨0, 100⟩, 20⟩).1 :=
  operations_preserve_invariant.1 _ _ (by decide) (Or.inl (by decide))

end GameInventory
